import Mathlib

/-!
# Verification of the transbasket translation-cache subsystem

Shallow embedding of the cache subsystem of the `transbasket` translation
proxy daemon: the SHA-256 composite-key hash (`trans_cache_calculate_hash`),
the text (JSONL) backend (`cache_backend_text.c`), a relational model of the
SQLite backend, the request handler's cache protocol (`handle_translate` in
`http_server.c`), and the offline migration tool (`cache_tool.c`).

Machine integers (`int`, `time_t`) are modelled as unbounded `Int`; byte
sequences as `List Nat` with values below 256.  The C `int` multiplication
`days_threshold * 24 * 60 * 60` is modelled without 32-bit wraparound (it
would overflow only for `days ≥ 24856`).
-/

namespace Transbasket

/-! ## SHA-256 (FIPS 180-4), as used through OpenSSL in `trans_cache.c`

The repository computes the cache key with OpenSSL's incremental
`SHA256_Init` / `SHA256_Update` / `SHA256_Final` interface.  We model the
context as the list of bytes fed so far and implement the compression
pipeline executably. -/

/-- Truncation to 32 bits. -/
def m32 (x : Nat) : Nat := x % 4294967296

/-- Rotation of a 32-bit word to the right by n bits. -/
def rotr32 (n x : Nat) : Nat := m32 ((x >>> n) ||| (x <<< (32 - n)))

/-- Message-schedule sigma-0 of FIPS 180-4. -/
def schedSig0 (x : Nat) : Nat := (rotr32 7 x) ^^^ (rotr32 18 x) ^^^ (x >>> 3)

/-- Message-schedule sigma-1 of FIPS 180-4. -/
def schedSig1 (x : Nat) : Nat := (rotr32 17 x) ^^^ (rotr32 19 x) ^^^ (x >>> 10)

/-- Round-function Sigma-0 of FIPS 180-4. -/
def roundSig0 (x : Nat) : Nat := (rotr32 2 x) ^^^ (rotr32 13 x) ^^^ (rotr32 22 x)

/-- Round-function Sigma-1 of FIPS 180-4. -/
def roundSig1 (x : Nat) : Nat := (rotr32 6 x) ^^^ (rotr32 11 x) ^^^ (rotr32 25 x)

/-- The bitwise choose function of FIPS 180-4. -/
def chooseFn (x y z : Nat) : Nat := (x &&& y) ^^^ ((x ^^^ 4294967295) &&& z)

/-- The bitwise majority function of FIPS 180-4. -/
def majorityFn (x y z : Nat) : Nat := (x &&& y) ^^^ (x &&& z) ^^^ (y &&& z)

/-- The sixty-four round constants of FIPS 180-4, written in decimal. -/
def K256 : List Nat :=
  [1116352408, 1899447441, 3049323471, 3921009573, 961987163,
   1508970993, 2453635748, 2870763221, 3624381080, 310598401,
   607225278, 1426881987, 1925078388, 2162078206, 2614888103,
   3248222580, 3835390401, 4022224774, 264347078, 604807628,
   770255983, 1249150122, 1555081692, 1996064986, 2554220882,
   2821834349, 2952996808, 3210313671, 3336571891, 3584528711,
   113926993, 338241895, 666307205, 773529912, 1294757372,
   1396182291, 1695183700, 1986661051, 2177026350, 2456956037,
   2730485921, 2820302411, 3259730800, 3345764771, 3516065817,
   3600352804, 4094571909, 275423344, 430227734, 506948616,
   659060556, 883997877, 958139571, 1322822218, 1537002063,
   1747873779, 1955562222, 2024104815, 2227730452, 2361852424,
   2428436474, 2756734187, 3204031479, 3329325298]

/-- SHA-256 working state: eight 32-bit words. -/
structure Sha256State where
  a : Nat
  b : Nat
  c : Nat
  d : Nat
  e : Nat
  f : Nat
  g : Nat
  h : Nat
deriving Repr, DecidableEq

/-- The initial hash value of FIPS 180-4, written in decimal. -/
def sha256IV : Sha256State :=
  ⟨1779033703, 3144134277, 1013904242, 2773480762,
   1359893119, 2600822924, 528734635, 1541459225⟩

/-- Big-endian decoding of four bytes into a 32-bit word. -/
def word32OfBytes (b0 b1 b2 b3 : Nat) : Nat :=
  ((b0 % 256) * 16777216) + ((b1 % 256) * 65536) + ((b2 % 256) * 256) + (b3 % 256)

/-- Split a 64-byte block into its sixteen big-endian 32-bit words. -/
def blockWords : List Nat → List Nat
  | b0 :: b1 :: b2 :: b3 :: rest => word32OfBytes b0 b1 b2 b3 :: blockWords rest
  | _ => []

/-- Extend sixteen message words to the 64-entry message schedule. -/
def extendSchedule (w16 : List Nat) : List Nat :=
  (List.range 48).foldl
    (fun w _ =>
      w ++ [m32 (schedSig1 (w.getD (w.length - 2) 0) + w.getD (w.length - 7) 0 +
                 schedSig0 (w.getD (w.length - 15) 0) + w.getD (w.length - 16) 0)])
    w16

/-- One SHA-256 compression round. -/
def sha256Round (s : Sha256State) (kw : Nat × Nat) : Sha256State :=
  let t1 := m32 (s.h + roundSig1 s.e + chooseFn s.e s.f s.g + kw.1 + kw.2)
  let t2 := m32 (roundSig0 s.a + majorityFn s.a s.b s.c)
  ⟨m32 (t1 + t2), s.a, s.b, s.c, m32 (s.d + t1), s.e, s.f, s.g⟩

/-- Compress one 64-byte block into the running hash state. -/
def sha256Block (s : Sha256State) (block : List Nat) : Sha256State :=
  let ws := extendSchedule (blockWords block)
  let t := (K256.zip ws).foldl sha256Round s
  ⟨m32 (s.a + t.a), m32 (s.b + t.b), m32 (s.c + t.c), m32 (s.d + t.d),
   m32 (s.e + t.e), m32 (s.f + t.f), m32 (s.g + t.g), m32 (s.h + t.h)⟩

/-- Big-endian encoding of `n` as `len` bytes. -/
def bytesBE : Nat → Nat → List Nat
  | 0, _ => []
  | len + 1, n => (n >>> (8 * len)) % 256 :: bytesBE len n

/-- SHA-256 message padding: a `0x80` byte, zeros to 56 mod 64, then the
bit length as eight big-endian bytes. -/
def sha256Pad (msg : List Nat) : List Nat :=
  msg ++ [0x80] ++ List.replicate ((119 - msg.length % 64) % 64) 0 ++
    bytesBE 8 (8 * msg.length)

/-- Split a byte list into successive 64-byte blocks (structural recursion
on a fuel bounded by the list length, so that the kernel can evaluate it). -/
def chunks64Go : Nat → List Nat → List (List Nat)
  | 0, _ => []
  | _ + 1, [] => []
  | fuel + 1, b :: l => ((b :: l).take 64) :: chunks64Go fuel ((b :: l).drop 64)

/-- Split a byte list into successive 64-byte blocks. -/
def chunks64 (l : List Nat) : List (List Nat) := chunks64Go l.length l

/-- Big-endian bytes of one 32-bit word. -/
def word32Bytes (w : Nat) : List Nat :=
  [w / 16777216 % 256, w / 65536 % 256, w / 256 % 256, w % 256]

/-- SHA-256 of a byte sequence: the 32-byte digest. -/
def sha256 (msg : List Nat) : List Nat :=
  let s := (chunks64 (sha256Pad msg)).foldl sha256Block sha256IV
  word32Bytes s.a ++ word32Bytes s.b ++ word32Bytes s.c ++ word32Bytes s.d ++
    word32Bytes s.e ++ word32Bytes s.f ++ word32Bytes s.g ++ word32Bytes s.h

/-- One nibble as a lowercase hexadecimal character (as `sprintf "%02x"`). -/
def hexDigit (n : Nat) : Char :=
  if n < 10 then Char.ofNat (48 + n) else Char.ofNat (87 + n)

/-- One byte as two lowercase hexadecimal characters. -/
def byteToHex (b : Nat) : List Char := [hexDigit (b / 16 % 16), hexDigit (b % 16)]

/-- Render a byte list as a lowercase hexadecimal string. -/
def bytesToHex (bs : List Nat) : String := ⟨bs.flatMap byteToHex⟩

/-- OpenSSL `SHA256_Init`: the context is the byte sequence fed so far. -/
def SHA256_Init : List Nat := []

/-- OpenSSL `SHA256_Update`: feed further bytes to the context. -/
def SHA256_Update (ctx data : List Nat) : List Nat := ctx ++ data

/-- OpenSSL `SHA256_Final`: produce the digest of all bytes fed. -/
def SHA256_Final (ctx : List Nat) : List Nat := sha256 ctx

/-- UTF-8 encoding of one Unicode code point. -/
def utf8Bytes (n : Nat) : List Nat :=
  if n < 128 then [n]
  else if n < 2048 then [192 ||| (n >>> 6), 128 ||| (n &&& 63)]
  else if n < 65536 then
    [224 ||| (n >>> 12), 128 ||| ((n >>> 6) &&& 63), 128 ||| (n &&& 63)]
  else
    [240 ||| (n >>> 18), 128 ||| ((n >>> 12) &&& 63),
     128 ||| ((n >>> 6) &&& 63), 128 ||| (n &&& 63)]

/-- UTF-8 bytes of a string, as the C functions see `const char *`. -/
def strBytes (s : String) : List Nat := s.data.flatMap (fun c => utf8Bytes c.toNat)

/-- `trans_cache_calculate_hash` from `trans_cache.c` over raw byte
sequences: feed `from_lang`, `"|"`, `to_lang`, `"|"`, `text` to an
incremental SHA-256 context and render the digest as lowercase hex. -/
def calculateHashBytes (from_lang to_lang text : List Nat) : String :=
  bytesToHex (SHA256_Final
    (SHA256_Update (SHA256_Update (SHA256_Update (SHA256_Update
      (SHA256_Update SHA256_Init from_lang) [0x7c]) to_lang) [0x7c]) text))

/-- `trans_cache_calculate_hash` on C strings. -/
def trans_cache_calculate_hash (from_lang to_lang text : String) : String :=
  calculateHashBytes (strBytes from_lang) (strBytes to_lang) (strBytes text)

/-! ## Data model: `CacheEntry` and the text backend (`cache_backend_text.c`)

`int` and `time_t` fields are modelled as `Int`.  `strncpy` into the
fixed-size `hash[65]`, `from_lang[4]` and `to_lang[4]` buffers is modelled
by `truncStr` (truncation by code point; the fields hold ASCII hex digests
and ISO 639-2 codes, for which code points coincide with bytes). -/

/-- The nine-field cache entry record (`trans_cache.h`). -/
structure CacheEntry where
  id : Int
  hash : String
  from_lang : String
  to_lang : String
  source_text : String
  translated_text : String
  count : Int
  last_used : Int
  created_at : Int
deriving Repr, DecidableEq, Inhabited

/-- Bounded string copy, as `strncpy` into a buffer of `n + 1` bytes. -/
def truncStr (n : Nat) (s : String) : String := ⟨s.data.take n⟩

/-- Text backend state: the in-memory ordered sequence of entries and the
next-id counter (`TextBackendContext`). -/
structure TextBackendContext where
  entries : List CacheEntry
  next_id : Int
deriving Repr, DecidableEq, Inhabited

/-- A fresh text backend before any file is loaded (`text_backend_init`). -/
def emptyTextCtx : TextBackendContext := { entries := [], next_id := 1 }

/-- Replace the element at one position of a list. -/
def modifyIdx (l : List CacheEntry) (i : Nat) (f : CacheEntry → CacheEntry) :
    List CacheEntry :=
  match l, i with
  | [], _ => []
  | x :: xs, 0 => f x :: xs
  | x :: xs, n + 1 => x :: modifyIdx xs n f

/-- The linear first-match scan over stored hashes inside
`text_backend_lookup`, returning the index and the entry found. -/
def findHash (entries : List CacheEntry) (h : String) : Option (Nat × CacheEntry) :=
  match entries with
  | [] => none
  | e :: rest =>
    if e.hash = h then some (0, e)
    else (findHash rest h).map (fun p => (p.1 + 1, p.2))

/-- `text_backend_lookup`: hash the key, scan for the first entry with a
matching hash, and on a hit set its `last_used` to `now` in place.  The
returned pair is the C function's returned pointer: the position of the
found entry and its (touched) value. -/
def text_backend_lookup (ctx : TextBackendContext)
    (from_lang to_lang text : String) (now : Int) :
    Option (Nat × CacheEntry) × TextBackendContext :=
  let h := trans_cache_calculate_hash from_lang to_lang text
  match findHash ctx.entries h with
  | none => (none, ctx)
  | some (i, e) =>
    (some (i, { e with last_used := now }),
     { ctx with entries := modifyIdx ctx.entries i (fun en => { en with last_used := now }) })

/-- `text_backend_add`: append a fresh entry with the next id, `count = 1`
and both timestamps `now`.  No duplicate-hash check is performed.  The
success path is modelled (allocation failures are out of scope). -/
def text_backend_add (ctx : TextBackendContext)
    (from_lang to_lang source_text translated_text : String) (now : Int) :
    TextBackendContext :=
  let entry : CacheEntry :=
    { id := ctx.next_id
      hash := trans_cache_calculate_hash from_lang to_lang source_text
      from_lang := truncStr 3 from_lang
      to_lang := truncStr 3 to_lang
      source_text := source_text
      translated_text := translated_text
      count := 1
      created_at := now
      last_used := now }
  { entries := ctx.entries ++ [entry], next_id := ctx.next_id + 1 }

/-- `text_backend_update_count` on the entry value behind the caller's
pointer: increment `count`, set `last_used = now`. -/
def text_backend_update_count (e : CacheEntry) (now : Int) : CacheEntry :=
  { e with count := e.count + 1, last_used := now }

/-- `text_backend_update_translation` on the entry value behind the
caller's pointer: replace the translation, reset `count` to 1, set
`last_used = now`. -/
def text_backend_update_translation (e : CacheEntry) (new_translation : String)
    (now : Int) : CacheEntry :=
  { e with translated_text := new_translation, count := 1, last_used := now }

/-- `text_backend_update_count` applied through the backend state at the
position of the caller's pointer. -/
def updateCountAt (ctx : TextBackendContext) (i : Nat) (now : Int) :
    TextBackendContext :=
  { ctx with entries := modifyIdx ctx.entries i (fun e => text_backend_update_count e now) }

/-- `text_backend_update_translation` applied through the backend state at
the position of the caller's pointer. -/
def updateTranslationAt (ctx : TextBackendContext) (i : Nat)
    (new_translation : String) (now : Int) : TextBackendContext :=
  { ctx with
    entries := modifyIdx ctx.entries i
      (fun e => text_backend_update_translation e new_translation now) }

/-- `text_backend_cleanup`: remove every entry with
`last_used < now - days * 86400` by an in-place compacting scan and return
the number removed; a non-positive `days` is rejected up front. -/
def text_backend_cleanup (ctx : TextBackendContext) (days now : Int) :
    Int × TextBackendContext :=
  if days ≤ 0 then (0, ctx)
  else
    let bound := now - days * (24 * 60 * 60)
    ((ctx.entries.countP (fun e => decide (e.last_used < bound)) : Int),
     { ctx with entries := ctx.entries.filter (fun e => !decide (e.last_used < bound)) })

/-! ## JSONL persistence (`text_backend_save` / `load_cache_from_file`)

A saved file is modelled one line at a time at the level cJSON exposes it:
a line is `none` when `cJSON_Parse` fails, otherwise the parsed object's
key/value pairs. -/

/-- A cJSON value as the loader inspects it: string, number, or any other
JSON type (array, object, bool, null), which fails both `cJSON_IsString`
and `cJSON_IsNumber`. -/
inductive JsonVal where
  | str : String → JsonVal
  | num : Int → JsonVal
  | other : JsonVal
deriving Repr, DecidableEq

/-- One parsed JSONL object: its key/value pairs. -/
abbrev JsonObj := List (String × JsonVal)

/-- `cJSON_GetObjectItem`: first pair with the given key, if any. -/
def getItem (o : JsonObj) (k : String) : Option JsonVal :=
  (o.find? (fun p => p.1 == k)).map (fun p => p.2)

/-- The JSON object `text_backend_save` writes for one entry, with the
source's key order. -/
def entryToJson (e : CacheEntry) : JsonObj :=
  [("id", .num e.id), ("hash", .str e.hash), ("from", .str e.from_lang),
   ("to", .str e.to_lang), ("source", .str e.source_text),
   ("target", .str e.translated_text), ("count", .num e.count),
   ("last_used", .num e.last_used), ("created_at", .num e.created_at)]

/-- `text_backend_save`: one JSON object per stored entry, in sequence
order. -/
def text_backend_save (ctx : TextBackendContext) : List JsonObj :=
  ctx.entries.map entryToJson

/-- Field extraction and validation for one loaded line: every field must
be present with the right cJSON type (`cJSON_IsNumber` / `cJSON_IsString`);
no range checks are made.  String fields pass through the `strncpy`
bounded copies into the entry's fixed buffers. -/
def parseEntryLine (o : JsonObj) : Option CacheEntry :=
  match getItem o "id", getItem o "hash", getItem o "from", getItem o "to",
        getItem o "source", getItem o "target", getItem o "count",
        getItem o "last_used", getItem o "created_at" with
  | some (.num id), some (.str _hash), some (.str fr), some (.str t),
    some (.str src), some (.str tgt), some (.num count),
    some (.num lu), some (.num ca) =>
    some { id := id, hash := truncStr 64 _hash, from_lang := truncStr 3 fr,
           to_lang := truncStr 3 t, source_text := src, translated_text := tgt,
           count := count, last_used := lu, created_at := ca }
  | _, _, _, _, _, _, _, _, _ => none

/-- One iteration of the load loop: unparsable or invalid lines are
skipped; a loaded entry is appended and bumps `next_id` to `id + 1`
whenever `id ≥ next_id`. -/
def loadStep (ctx : TextBackendContext) (line : Option JsonObj) :
    TextBackendContext :=
  match line with
  | none => ctx
  | some o =>
    match parseEntryLine o with
    | none => ctx
    | some e =>
      { entries := ctx.entries ++ [e],
        next_id := if e.id ≥ ctx.next_id then e.id + 1 else ctx.next_id }

/-- `load_cache_from_file` starting from the freshly initialised context
(`text_backend_init`); a missing file is the empty line list. -/
def load_cache_from_file (lines : List (Option JsonObj)) : TextBackendContext :=
  lines.foldl loadStep emptyTextCtx

/-! ## SQLite backend (`cache_backend_sqlite.c`), relational model

The `trans_cache` table is a list of rows in rowid order together with the
auto-increment counter.  `SQL_CREATE_TABLE` declares `hash` `UNIQUE` and
`CHECK` constraints on the `hash`/`from_lang`/`to_lang` lengths and
`count >= 1`; an `INSERT` violating any of them makes `sqlite3_step`
return an error. -/

/-- SQLite backend state: table rows in rowid order plus the
auto-increment counter. -/
structure SqliteState where
  rows : List CacheEntry
  next_rowid : Int
deriving Repr, DecidableEq, Inhabited

/-- An empty SQLite cache as `sqlite_backend_init` creates it. -/
def emptySqlite : SqliteState := { rows := [], next_rowid := 1 }

/-- The `CHECK` constraints of `SQL_CREATE_TABLE`. -/
def sqliteChecksOk (e : CacheEntry) : Bool :=
  e.hash.length == 64 && e.from_lang.length == 3 && e.to_lang.length == 3 &&
    decide (1 ≤ e.count)

/-- `sqlite_backend_add`: hash the key and `INSERT` a row with `count = 1`
and both timestamps `now`; the statement fails (`none`) if the `UNIQUE`
hash constraint or a `CHECK` constraint is violated. -/
def sqlite_backend_add (st : SqliteState)
    (from_lang to_lang source_text translated_text : String) (now : Int) :
    Option SqliteState :=
  let h := trans_cache_calculate_hash from_lang to_lang source_text
  let row : CacheEntry :=
    { id := st.next_rowid, hash := h, from_lang := from_lang, to_lang := to_lang,
      source_text := source_text, translated_text := translated_text,
      count := 1, last_used := now, created_at := now }
  if st.rows.any (fun r => r.hash == h) then none
  else if sqliteChecksOk row then
    some { rows := st.rows ++ [row], next_rowid := st.next_rowid + 1 }
  else none

/-- `sqlite_backend_update_translation`: `UPDATE trans_cache SET
translated_text = ?, count = 1, last_used = ? WHERE hash = ?` using the
caller's entry hash. -/
def sqlite_backend_update_translation (st : SqliteState) (hash : String)
    (new_translation : String) (now : Int) : SqliteState :=
  { st with
    rows := st.rows.map (fun r =>
      if r.hash == hash then
        { r with translated_text := new_translation, count := 1, last_used := now }
      else r) }

/-- `sqlite_backend_cleanup`: one parameterized
`DELETE FROM trans_cache WHERE last_used < ?` with the bound
`now - days * 86400`, returning `sqlite3_changes`; a non-positive `days`
is rejected up front. -/
def sqlite_backend_cleanup (st : SqliteState) (days now : Int) :
    Int × SqliteState :=
  if days ≤ 0 then (0, st)
  else
    let bound := now - days * (24 * 60 * 60)
    ((st.rows.countP (fun r => decide (r.last_used < bound)) : Int),
     { st with rows := st.rows.filter (fun r => !decide (r.last_used < bound)) })

/-! ## Request handler (`handle_translate` in `http_server.c`)

The cache-relevant portion of the handler, after request parsing and text
sanitization: look the key up; serve from cache when the entry's count has
reached `cache_threshold`; otherwise call the external translator and
reconcile.  The external call's result is an input (`some` translation, or
`none` for a translator error). -/

/-- Outcome of one handler run: the HTTP 200 body's translation, or an
error response. -/
inductive HandlerOutcome where
  | ok : String → HandlerOutcome
  | error : HandlerOutcome
deriving Repr, DecidableEq

/-- Result of one handler run over the text backend: outcome, final cache
state, and whether `openai_translate` was invoked. -/
structure HandlerResult where
  outcome : HandlerOutcome
  state : TextBackendContext
  externalCalled : Bool
deriving Repr, DecidableEq

/-- The cache protocol of `handle_translate` over the text backend.
`external` is what `openai_translate` would return for this request.  The
whole request is modelled at one clock value `now`. -/
def handle_translate (st : TextBackendContext) (cache_threshold : Int)
    (from_lang to_lang text : String) (external : Option String) (now : Int) :
    HandlerResult :=
  let r := text_backend_lookup st from_lang to_lang text now
  let st1 := r.2
  match r.1 with
  | some (i, cached) =>
    if cache_threshold ≤ cached.count then
      { outcome := .ok cached.translated_text,
        state := updateCountAt st1 i now,
        externalCalled := false }
    else
      match external with
      | none => { outcome := .error, state := st1, externalCalled := true }
      | some tr =>
        if cached.translated_text = tr then
          { outcome := .ok tr, state := updateCountAt st1 i now,
            externalCalled := true }
        else
          { outcome := .ok tr, state := updateTranslationAt st1 i tr now,
            externalCalled := true }
  | none =>
    match external with
    | none => { outcome := .error, state := st1, externalCalled := true }
    | some tr =>
      { outcome := .ok tr,
        state := text_backend_add st1 from_lang to_lang text tr now,
        externalCalled := true }

/-! ## Migration tool (`cache_tool.c`)

`cmd_migrate` iterates every source entry in ascending id order and calls
`trans_cache_add` on the destination with only the four identity fields;
a failed `add` counts as failed and iteration continues. -/

/-- Running tallies of `MigrateContext`. -/
structure MigrateCounts where
  migrated : Int
  failed : Int
deriving Repr, DecidableEq

/-- Migration with a text-backend destination: `text_backend_add` always
succeeds, so every entry is migrated. -/
def migrate_to_text : List CacheEntry → TextBackendContext → Int →
    TextBackendContext × MigrateCounts
  | [], dst, _ => (dst, ⟨0, 0⟩)
  | e :: rest, dst, now =>
    let r := migrate_to_text rest
      (text_backend_add dst e.from_lang e.to_lang e.source_text
        e.translated_text now) now
    (r.1, ⟨r.2.migrated + 1, r.2.failed⟩)

/-- Migration with a SQLite destination: a failing `INSERT` increments the
failed count and iteration continues (`migrate_entry_callback`). -/
def migrate_to_sqlite : List CacheEntry → SqliteState → Int →
    SqliteState × MigrateCounts
  | [], dst, _ => (dst, ⟨0, 0⟩)
  | e :: rest, dst, now =>
    match sqlite_backend_add dst e.from_lang e.to_lang e.source_text
        e.translated_text now with
    | some st1 =>
      let r := migrate_to_sqlite rest st1 now
      (r.1, ⟨r.2.migrated + 1, r.2.failed⟩)
    | none =>
      let r := migrate_to_sqlite rest dst now
      (r.1, ⟨r.2.migrated, r.2.failed + 1⟩)

/-- The four identity-relevant fields migration carries over. -/
def tuple4 (e : CacheEntry) : String × String × String × String :=
  (e.from_lang, e.to_lang, e.source_text, e.translated_text)

/-! ## Helper lemmas -/

/-- The sixteen lowercase hexadecimal characters. -/
def hexChars : List Char := "0123456789abcdef".data

theorem hexDigit_mem_hexChars : ∀ n, n < 16 → hexDigit n ∈ hexChars := by decide

theorem sha256_length (msg : List Nat) : (sha256 msg).length = 32 := by
  simp [sha256, word32Bytes]

theorem flatMap_byteToHex_length (bs : List Nat) :
    (bs.flatMap byteToHex).length = 2 * bs.length := by
  induction bs with
  | nil => simp
  | cons b rest ih => simp [byteToHex, ih]; omega

theorem bytesToHex_length (bs : List Nat) :
    (bytesToHex bs).length = 2 * bs.length := by
  show (bs.flatMap byteToHex).length = 2 * bs.length
  exact flatMap_byteToHex_length bs

theorem mem_bytesToHex_hexChars (bs : List Nat) (c : Char)
    (hc : c ∈ (bytesToHex bs).data) : c ∈ hexChars := by
  have hc' : c ∈ bs.flatMap byteToHex := hc
  rcases List.mem_flatMap.mp hc' with ⟨b, _, hb⟩
  simp only [byteToHex, List.mem_cons, List.mem_singleton, List.not_mem_nil,
    or_false] at hb
  rcases hb with h | h
  · exact h ▸ hexDigit_mem_hexChars _ (Nat.mod_lt _ (by norm_num))
  · exact h ▸ hexDigit_mem_hexChars _ (Nat.mod_lt _ (by norm_num))

theorem calculateHashBytes_length (f t x : List Nat) :
    (calculateHashBytes f t x).length = 64 := by
  simp [calculateHashBytes, bytesToHex_length, sha256_length, SHA256_Final]

theorem trans_cache_calculate_hash_length (f t x : String) :
    (trans_cache_calculate_hash f t x).length = 64 :=
  calculateHashBytes_length _ _ _

/-! ## Claim theorems -/

/-- C3.  Hash function definition: for all byte-sequence inputs
`(from_lang, to_lang, text)`, `trans_cache_calculate_hash` outputs exactly
the 64-character lowercase hexadecimal rendering of
`SHA-256(from_lang || "|" || to_lang || "|" || text)`.  (Determinism is
immediate: the embedding is a pure function of its inputs.) -/
theorem hash_function_spec (f t x : List Nat) :
    calculateHashBytes f t x = bytesToHex (sha256 (f ++ [0x7c] ++ t ++ [0x7c] ++ x)) ∧
    (calculateHashBytes f t x).length = 64 ∧
    ∀ c ∈ (calculateHashBytes f t x).data, c ∈ hexChars := by
  refine ⟨?_, calculateHashBytes_length f t x, ?_⟩
  · simp [calculateHashBytes, SHA256_Init, SHA256_Update, SHA256_Final]
  · intro c hc
    exact mem_bytesToHex_hexChars _ c hc

/-- Witness for C3 at the concrete bytes of `"kor"`, `"eng"`, `"hi"`. -/
theorem hash_function_spec_witness :
    (calculateHashBytes [107, 111, 114] [101, 110, 103] [104, 105]).length = 64 :=
  (hash_function_spec [107, 111, 114] [101, 110, 103] [104, 105]).2.1

/-- C1.  Admission policy (confirmation-by-repetition): when the lookup
finds an entry whose count has reached `cache_threshold`, the handler
calls `update_count` and returns the stored translation without invoking
the external translator; when the lookup finds nothing, or an entry below
the threshold, the external translator is always invoked. -/
theorem admission_policy (st : TextBackendContext) (thr : Int)
    (f t x : String) (ext : Option String) (now : Int) :
    (∀ i e, (text_backend_lookup st f t x now).1 = some (i, e) → thr ≤ e.count →
      handle_translate st thr f t x ext now =
        { outcome := .ok e.translated_text,
          state := updateCountAt (text_backend_lookup st f t x now).2 i now,
          externalCalled := false }) ∧
    (∀ i e, (text_backend_lookup st f t x now).1 = some (i, e) → e.count < thr →
      (handle_translate st thr f t x ext now).externalCalled = true) ∧
    ((text_backend_lookup st f t x now).1 = none →
      (handle_translate st thr f t x ext now).externalCalled = true) := by
  refine ⟨?_, ?_, ?_⟩
  · intro i e h hc
    simp only [handle_translate]
    rw [h]
    simp [hc]
  · intro i e h hc
    simp only [handle_translate]
    rw [h]
    have hnc : ¬ thr ≤ e.count := not_le.mpr hc
    simp only [hnc, if_false]
    cases ext with
    | none => rfl
    | some tr => by_cases htr : e.translated_text = tr <;> simp [htr]
  · intro h
    simp only [handle_translate]
    rw [h]
    cases ext <;> rfl

/-- Witness for C1: a one-entry cache at the threshold is served from
cache without an external call. -/
theorem admission_policy_witness :
    (handle_translate
      { entries := [{ id := 1, hash := trans_cache_calculate_hash "kor" "eng" "hi",
                      from_lang := "kor", to_lang := "eng", source_text := "hi",
                      translated_text := "Hello", count := 5, last_used := 10,
                      created_at := 10 }], next_id := 2 }
      5 "kor" "eng" "hi" (some "X") 50).externalCalled = false := by
  have h := (admission_policy
      { entries := [{ id := 1, hash := trans_cache_calculate_hash "kor" "eng" "hi",
                      from_lang := "kor", to_lang := "eng", source_text := "hi",
                      translated_text := "Hello", count := 5, last_used := 10,
                      created_at := 10 }], next_id := 2 }
      5 "kor" "eng" "hi" (some "X") 50).1 0
      { id := 1, hash := trans_cache_calculate_hash "kor" "eng" "hi",
        from_lang := "kor", to_lang := "eng", source_text := "hi",
        translated_text := "Hello", count := 5, last_used := 50, created_at := 10 }
      (by simp [text_backend_lookup, findHash]) (by norm_num)
  rw [h]

/-- Count of removed entries plus count of survivors is the total. -/
theorem countP_add_filter_length (p : CacheEntry → Bool) (l : List CacheEntry) :
    l.countP p + (l.filter (fun e => !p e)).length = l.length := by
  induction l with
  | nil => simp
  | cons e rest ih =>
    by_cases hp : p e <;> simp [List.countP_cons, hp] <;> omega

/-- C5.  Cleanup postcondition (P4): for `days ≥ 1`, `cleanup(days)` run at
time `now` removes exactly the entries with
`last_used < now - days * 86400` (afterwards no entry is below the bound
and every other entry remains) and returns the number removed, for both
the text and the SQLite backend. -/
theorem cleanup_postcondition (ctx : TextBackendContext) (st : SqliteState)
    (days now : Int) (hd : 1 ≤ days) :
    (∀ e ∈ ctx.entries,
      (e.last_used < now - days * 86400 →
        e ∉ (text_backend_cleanup ctx days now).2.entries) ∧
      (¬ e.last_used < now - days * 86400 →
        e ∈ (text_backend_cleanup ctx days now).2.entries)) ∧
    (∀ e ∈ (text_backend_cleanup ctx days now).2.entries,
      ¬ e.last_used < now - days * 86400) ∧
    (text_backend_cleanup ctx days now).1 =
      (ctx.entries.length : Int) -
        ((text_backend_cleanup ctx days now).2.entries.length : Int) ∧
    (∀ r ∈ st.rows,
      (r.last_used < now - days * 86400 →
        r ∉ (sqlite_backend_cleanup st days now).2.rows) ∧
      (¬ r.last_used < now - days * 86400 →
        r ∈ (sqlite_backend_cleanup st days now).2.rows)) ∧
    (∀ r ∈ (sqlite_backend_cleanup st days now).2.rows,
      ¬ r.last_used < now - days * 86400) ∧
    (sqlite_backend_cleanup st days now).1 =
      (st.rows.length : Int) -
        ((sqlite_backend_cleanup st days now).2.rows.length : Int) := by
  have hnd : ¬ days ≤ 0 := by omega
  have hb : now - days * (24 * 60 * 60) = now - days * 86400 := by norm_num
  simp only [text_backend_cleanup, sqlite_backend_cleanup, hnd, if_false, hb]
  refine ⟨?_, ?_, ?_, ?_, ?_, ?_⟩
  · intro e he
    constructor
    · intro hexp hmem
      rcases (List.mem_filter.mp hmem) with ⟨-, hkeep⟩
      simp [hexp] at hkeep
    · intro hok
      exact List.mem_filter.mpr ⟨he, by simp [hok]⟩
  · intro e he
    rcases (List.mem_filter.mp he) with ⟨-, hkeep⟩
    simp at hkeep
    omega
  · have := countP_add_filter_length
      (fun e => decide (e.last_used < now - days * 86400)) ctx.entries
    push_cast [← this]
    ring
  · intro r hr
    constructor
    · intro hexp hmem
      rcases (List.mem_filter.mp hmem) with ⟨-, hkeep⟩
      simp [hexp] at hkeep
    · intro hok
      exact List.mem_filter.mpr ⟨hr, by simp [hok]⟩
  · intro r hr
    rcases (List.mem_filter.mp hr) with ⟨-, hkeep⟩
    simp at hkeep
    omega
  · have := countP_add_filter_length
      (fun r => decide (r.last_used < now - days * 86400)) st.rows
    push_cast [← this]
    ring

/-- Witness for C5: a two-entry text backend and a one-row SQLite backend
cleaned with `days = 30` at `now = 31 * 86400`. -/
theorem cleanup_postcondition_witness :
    ((text_backend_cleanup
      { entries := [⟨1, "h1", "kor", "eng", "a", "A", 1, 0, 0⟩,
                    ⟨2, "h2", "kor", "eng", "b", "B", 2, 2678500, 2678400⟩],
        next_id := 3 } 30 2678400).1 : Int) =
      (2 : Int) - ((text_backend_cleanup
      { entries := [⟨1, "h1", "kor", "eng", "a", "A", 1, 0, 0⟩,
                    ⟨2, "h2", "kor", "eng", "b", "B", 2, 2678500, 2678400⟩],
        next_id := 3 } 30 2678400).2.entries.length : Int) := by
  have h := (cleanup_postcondition
      { entries := [⟨1, "h1", "kor", "eng", "a", "A", 1, 0, 0⟩,
                    ⟨2, "h2", "kor", "eng", "b", "B", 2, 2678500, 2678400⟩],
        next_id := 3 }
      { rows := [⟨1, "h1", "kor", "eng", "a", "A", 1, 0, 0⟩], next_rowid := 2 }
      30 2678400 (by norm_num)).2.2.1
  simpa using h

/-- C6.  `update_translation` postcondition: a successful
`update_translation(entry, new)` leaves `translated_text = new`,
`count = 1` and `last_used = now`, for the text backend's in-place entry
mutation and for the SQLite backend's `UPDATE ... WHERE hash = ?`; two
such calls with the same new text applied to any entry still yield
`count = 1`. -/
theorem update_translation_postcondition (e : CacheEntry) (st : SqliteState)
    (hh : String) (new_translation : String) (t1 t2 : Int) :
    (text_backend_update_translation e new_translation t1).translated_text =
      new_translation ∧
    (text_backend_update_translation e new_translation t1).count = 1 ∧
    (text_backend_update_translation e new_translation t1).last_used = t1 ∧
    (text_backend_update_translation
      (text_backend_update_translation e new_translation t1) new_translation t2).count = 1 ∧
    (∀ r ∈ (sqlite_backend_update_translation st hh new_translation t1).rows,
      r.hash = hh →
        r.translated_text = new_translation ∧ r.count = 1 ∧ r.last_used = t1) ∧
    (∀ r ∈ (sqlite_backend_update_translation
        (sqlite_backend_update_translation st hh new_translation t1)
        hh new_translation t2).rows,
      r.hash = hh → r.count = 1) := by
  refine ⟨rfl, rfl, rfl, rfl, ?_, ?_⟩
  · intro r hr hrh
    rcases List.mem_map.mp hr with ⟨r0, _, rfl⟩
    by_cases h0 : r0.hash == hh
    · simp [h0]
    · simp only [h0, if_false] at hrh ⊢
      exact absurd (by simpa using hrh) (by simpa using h0)
  · intro r hr hrh
    simp only [sqlite_backend_update_translation] at hr
    rcases List.mem_map.mp hr with ⟨r1, _, rfl⟩
    by_cases h1 : r1.hash == hh
    · simp [h1]
    · simp only [h1, if_false] at hrh ⊢
      exact absurd (by simpa using hrh) (by simpa using h1)

/-- Witness for C6 on a concrete entry and a concrete one-row table. -/
theorem update_translation_postcondition_witness :
    (text_backend_update_translation
      ⟨1, "h0", "kor", "eng", "a", "A", 7, 5, 3⟩ "B" 9).count = 1 :=
  (update_translation_postcondition
    ⟨1, "h0", "kor", "eng", "a", "A", 7, 5, 3⟩
    { rows := [⟨1, "h0", "kor", "eng", "a", "A", 7, 5, 3⟩], next_rowid := 2 }
    "h0" "B" 9 11).2.1

theorem findHash_eq_none_iff (l : List CacheEntry) (hk : String) :
    findHash l hk = none ↔ ∀ e ∈ l, e.hash ≠ hk := by
  induction l with
  | nil => simp [findHash]
  | cons a rest ih =>
    by_cases ha : a.hash = hk
    · simp [findHash, ha]
    · simp [findHash, ha, Option.map_eq_none', ih]

theorem modifyIdx_map_hash (l : List CacheEntry) (i : Nat)
    (g : CacheEntry → CacheEntry) (hg : ∀ e, (g e).hash = e.hash) :
    (modifyIdx l i g).map (fun e => e.hash) = l.map (fun e => e.hash) := by
  induction l generalizing i with
  | nil => rfl
  | cons a rest ih =>
    cases i with
    | zero => simp [modifyIdx, hg]
    | succ n => simp [modifyIdx, ih]

theorem map_hash_touch (l : List CacheEntry) (i : Nat) (v : Int) :
    (modifyIdx l i (fun en => { en with last_used := v })).map (fun e => e.hash) =
      l.map (fun e => e.hash) :=
  modifyIdx_map_hash l i _ (fun _ => rfl)

theorem map_hash_count (l : List CacheEntry) (i : Nat) (v : Int) :
    (modifyIdx l i (fun e => text_backend_update_count e v)).map (fun e => e.hash) =
      l.map (fun e => e.hash) :=
  modifyIdx_map_hash l i _ (fun _ => rfl)

theorem map_hash_trans (l : List CacheEntry) (i : Nat) (s : String) (v : Int) :
    (modifyIdx l i (fun e => text_backend_update_translation e s v)).map
        (fun e => e.hash) =
      l.map (fun e => e.hash) :=
  modifyIdx_map_hash l i _ (fun _ => rfl)

/-- C2 counterexample.  The text backend's `add` performs no duplicate
check: two `add` calls with the same `(from, to, text)` leave two live
entries with the same hash in the backend, with neither call failing. -/
theorem hash_uniqueness_counterexample :
    ((text_backend_add (text_backend_add emptyTextCtx "kor" "eng" "hi" "Hello" 10)
        "kor" "eng" "hi" "Howdy" 11).entries.map (fun e => e.hash)) =
      [trans_cache_calculate_hash "kor" "eng" "hi",
       trans_cache_calculate_hash "kor" "eng" "hi"] ∧
    ¬ ((text_backend_add (text_backend_add emptyTextCtx "kor" "eng" "hi" "Hello" 10)
        "kor" "eng" "hi" "Howdy" 11).entries.map (fun e => e.hash)).Nodup := by
  refine ⟨rfl, ?_⟩
  simp [text_backend_add, emptyTextCtx]

/-- C2 amended.  Hash uniqueness as enforced by the code: the SQLite
backend's `add` fails when the hash already has a row (UNIQUE constraint);
the text backend's `add` checks nothing, but the request-handler protocol
(which only adds after a lookup miss) preserves pairwise-distinct hashes
within a text backend instance. -/
theorem hash_uniqueness_amended (st : TextBackendContext) (sq : SqliteState)
    (thr : Int) (f t x tr : String) (ext : Option String) (now : Int)
    (huniq : (st.entries.map (fun e => e.hash)).Nodup) :
    ((sq.rows.any (fun r => r.hash == trans_cache_calculate_hash f t x)) = true →
      sqlite_backend_add sq f t x tr now = none) ∧
    ((handle_translate st thr f t x ext now).state.entries.map
      (fun e => e.hash)).Nodup := by
  constructor
  · intro hdup
    simp [sqlite_backend_add, hdup]
  · simp only [handle_translate, text_backend_lookup]
    cases hf : findHash st.entries (trans_cache_calculate_hash f t x) with
    | none =>
      cases ext with
      | none => simpa using huniq
      | some s =>
        have hno := (findHash_eq_none_iff _ _).mp hf
        simp only [text_backend_add, List.map_append, List.map_cons, List.map_nil]
        rw [List.nodup_append]
        refine ⟨huniq, by simp, ?_⟩
        intro a ha
        simp only [List.mem_map] at ha
        rcases ha with ⟨e, he, rfl⟩
        simp only [List.mem_cons, List.not_mem_nil, or_false]
        exact hno e he
    | some p =>
      obtain ⟨i, e⟩ := p
      by_cases hc : thr ≤ e.count
      · simp only [hc, if_true]
        simpa [updateCountAt, map_hash_count, map_hash_touch] using huniq
      · simp only [hc, if_false]
        cases ext with
        | none => simpa [map_hash_touch] using huniq
        | some s =>
          by_cases htr : e.translated_text = s
          · simpa [htr, updateCountAt, map_hash_count, map_hash_touch]
              using huniq
          · simpa [htr, updateTranslationAt, map_hash_trans, map_hash_touch]
              using huniq

/-- Witness for C2 amended: a duplicate-hash `INSERT` into a one-row
table fails, at a concrete table and key. -/
theorem hash_uniqueness_amended_witness :
    sqlite_backend_add
      { rows := [⟨1, trans_cache_calculate_hash "kor" "eng" "hi", "kor", "eng",
                  "hi", "Hello", 1, 10, 10⟩], next_rowid := 2 }
      "kor" "eng" "hi" "X" 50 = none :=
  (hash_uniqueness_amended { entries := [], next_id := 1 }
    { rows := [⟨1, trans_cache_calculate_hash "kor" "eng" "hi", "kor", "eng",
                "hi", "Hello", 1, 10, 10⟩], next_rowid := 2 }
    5 "kor" "eng" "hi" "X" none 50 (by simp)).1 (by simp)

theorem mem_modifyIdx (l : List CacheEntry) (i : Nat)
    (g : CacheEntry → CacheEntry) (e' : CacheEntry)
    (h : e' ∈ modifyIdx l i g) : e' ∈ l ∨ ∃ e ∈ l, e' = g e := by
  induction l generalizing i with
  | nil => cases h
  | cons a rest ih =>
    cases i with
    | zero =>
      rcases List.mem_cons.mp h with h' | h'
      · exact Or.inr ⟨a, List.mem_cons_self a rest, h'⟩
      · exact Or.inl (List.mem_cons_of_mem a h')
    | succ n =>
      rcases List.mem_cons.mp h with h' | h'
      · exact Or.inl (h' ▸ List.mem_cons_self a rest)
      · rcases ih n h' with h'' | ⟨e, he, rfl⟩
        · exact Or.inl (List.mem_cons_of_mem a h'')
        · exact Or.inr ⟨e, List.mem_cons_of_mem a he, rfl⟩

/-- C4 counterexample.  `load_cache_from_file` validates only the cJSON
types of the nine fields: a line with `count = 0` and
`last_used < created_at` is loaded verbatim, so the state produced by
initialization from such a file violates `count ≥ 1` and
`last_used ≥ created_at`. -/
theorem entry_wellformedness_counterexample :
    (load_cache_from_file [some
      [("id", JsonVal.num 1), ("hash", JsonVal.str "h"),
       ("from", JsonVal.str "kor"), ("to", JsonVal.str "eng"),
       ("source", JsonVal.str "hi"), ("target", JsonVal.str "Hello"),
       ("count", JsonVal.num 0), ("last_used", JsonVal.num 5),
       ("created_at", JsonVal.num 9)]]).entries =
      [⟨1, "h", "kor", "eng", "hi", "Hello", 0, 5, 9⟩] ∧
    ¬ (∀ e ∈ (load_cache_from_file [some
      [("id", JsonVal.num 1), ("hash", JsonVal.str "h"),
       ("from", JsonVal.str "kor"), ("to", JsonVal.str "eng"),
       ("source", JsonVal.str "hi"), ("target", JsonVal.str "Hello"),
       ("count", JsonVal.num 0), ("last_used", JsonVal.num 5),
       ("created_at", JsonVal.num 9)]]).entries,
      1 ≤ e.count ∧ e.created_at ≤ e.last_used) := by
  constructor
  · decide
  · decide

/-- C4 amended.  Entry wellformedness holds for the operational
transitions: if every entry of a text backend state satisfies
`count ≥ 1 ∧ last_used ≥ created_at` and no entry was created in the
future (`created_at ≤ now`), then the state after one request-handler step
and the state after a cleanup satisfy the same bounds; `load`, however,
only type-checks fields and accepts violating entries (see the
counterexample). -/
theorem entry_wellformedness_amended (st : TextBackendContext)
    (thr days now : Int) (f t x : String) (ext : Option String)
    (hwf : ∀ e ∈ st.entries, 1 ≤ e.count ∧ e.created_at ≤ e.last_used)
    (hnow : ∀ e ∈ st.entries, e.created_at ≤ now) :
    (∀ e ∈ (handle_translate st thr f t x ext now).state.entries,
      1 ≤ e.count ∧ e.created_at ≤ e.last_used) ∧
    (∀ e ∈ (text_backend_cleanup st days now).2.entries,
      1 ≤ e.count ∧ e.created_at ≤ e.last_used) := by
  constructor
  · simp only [handle_translate, text_backend_lookup]
    cases hf : findHash st.entries (trans_cache_calculate_hash f t x) with
    | none =>
      cases ext with
      | none => exact hwf
      | some s =>
        intro e' he'
        simp only [text_backend_add] at he'
        rcases List.mem_append.mp he' with h' | h'
        · exact hwf e' h'
        · rcases List.mem_singleton.mp h' with rfl
          exact ⟨le_refl 1, le_refl now⟩
    | some p =>
      obtain ⟨i, e⟩ := p
      have hstep' : ∀ e' ∈ modifyIdx st.entries i
          (fun en => { en with last_used := now }),
          (1 ≤ e'.count ∧ e'.created_at ≤ e'.last_used) ∧ e'.created_at ≤ now := by
        intro e' he'
        rcases mem_modifyIdx _ _ _ _ he' with h' | ⟨e₀, he₀, rfl⟩
        · exact ⟨hwf e' h', hnow e' h'⟩
        · exact ⟨⟨(hwf e₀ he₀).1, hnow e₀ he₀⟩, hnow e₀ he₀⟩
      by_cases hc : thr ≤ e.count
      · simp only [hc, if_true, updateCountAt]
        intro e' he'
        rcases mem_modifyIdx _ _ _ _ he' with h' | ⟨e₀, he₀, rfl⟩
        · exact (hstep' e' h').1
        · obtain ⟨⟨hc₀, _⟩, hn₀⟩ := hstep' e₀ he₀
          exact ⟨by simpa [text_backend_update_count] using by omega,
            by simpa [text_backend_update_count] using hn₀⟩
      · simp only [hc, if_false]
        cases ext with
        | none => intro e' he'; exact (hstep' e' he').1
        | some s =>
          by_cases htr : e.translated_text = s
          · simp only [htr, if_true, updateCountAt]
            intro e' he'
            rcases mem_modifyIdx _ _ _ _ he' with h' | ⟨e₀, he₀, rfl⟩
            · exact (hstep' e' h').1
            · obtain ⟨⟨hc₀, _⟩, hn₀⟩ := hstep' e₀ he₀
              exact ⟨by simpa [text_backend_update_count] using by omega,
                by simpa [text_backend_update_count] using hn₀⟩
          · simp only [htr, if_false, updateTranslationAt]
            intro e' he'
            rcases mem_modifyIdx _ _ _ _ he' with h' | ⟨e₀, he₀, rfl⟩
            · exact (hstep' e' h').1
            · obtain ⟨⟨hc₀, _⟩, hn₀⟩ := hstep' e₀ he₀
              exact ⟨le_refl 1,
                by simpa [text_backend_update_translation] using hn₀⟩
  · intro e' he'
    simp only [text_backend_cleanup] at he'
    by_cases hd : days ≤ 0
    · simp only [hd, if_true] at he'
      exact hwf e' he'
    · simp only [hd, if_false] at he'
      exact hwf e' (List.mem_filter.mp he').1

set_option maxRecDepth 1000000 in
/-- Witness for C4 amended: the entry created by a first-time request
against an empty cache is wellformed. -/
theorem entry_wellformedness_amended_witness :
    1 ≤ (⟨1, trans_cache_calculate_hash "kor" "eng" "hi", "kor", "eng", "hi",
          "Hello", 1, 50, 50⟩ : CacheEntry).count ∧
    (⟨1, trans_cache_calculate_hash "kor" "eng" "hi", "kor", "eng", "hi",
      "Hello", 1, 50, 50⟩ : CacheEntry).created_at ≤
      (⟨1, trans_cache_calculate_hash "kor" "eng" "hi", "kor", "eng", "hi",
        "Hello", 1, 50, 50⟩ : CacheEntry).last_used :=
  (entry_wellformedness_amended { entries := [], next_id := 1 }
    5 30 50 "kor" "eng" "hi" (some "Hello") (by simp) (by simp)).1
    ⟨1, trans_cache_calculate_hash "kor" "eng" "hi", "kor", "eng", "hi",
     "Hello", 1, 50, 50⟩
    (by simp [handle_translate, text_backend_lookup, findHash,
      text_backend_add, truncStr])

/-- Strings that fit the fixed-size buffers of the in-memory entry struct
(`hash[65]`, `from_lang[4]`, `to_lang[4]`); every entry the backend itself
creates satisfies this. -/
def fitsBuffers (e : CacheEntry) : Prop :=
  e.hash.data.length ≤ 64 ∧ e.from_lang.data.length ≤ 3 ∧ e.to_lang.data.length ≤ 3

instance (e : CacheEntry) : Decidable (fitsBuffers e) := by
  unfold fitsBuffers; infer_instance

theorem truncStr_of_le (n : Nat) (s : String) (h : s.data.length ≤ n) :
    truncStr n s = s := by
  cases s with
  | mk data =>
    show String.mk (List.take n data) = String.mk data
    rw [List.take_of_length_le h]

theorem parse_entryToJson (e : CacheEntry) (h : fitsBuffers e) :
    parseEntryLine (entryToJson e) = some e := by
  obtain ⟨h1, h2, h3⟩ := h
  have : parseEntryLine (entryToJson e) = some
      { id := e.id, hash := truncStr 64 e.hash,
        from_lang := truncStr 3 e.from_lang, to_lang := truncStr 3 e.to_lang,
        source_text := e.source_text, translated_text := e.translated_text,
        count := e.count, last_used := e.last_used,
        created_at := e.created_at } := rfl
  rw [this, truncStr_of_le _ _ h1, truncStr_of_le _ _ h2, truncStr_of_le _ _ h3]

theorem load_append (es : List CacheEntry) (acc : TextBackendContext)
    (h : ∀ e ∈ es, fitsBuffers e) :
    ((es.map (fun e => some (entryToJson e))).foldl loadStep acc).entries =
      acc.entries ++ es := by
  induction es generalizing acc with
  | nil => simp
  | cons e rest ih =>
    have hp := parse_entryToJson e (h e (List.mem_cons_self e rest))
    simp only [List.map_cons, List.foldl_cons, loadStep, hp]
    rw [ih _ (fun e' he' => h e' (List.mem_cons_of_mem e he'))]
    simp

/-- C7.  Save/reload round trip (P6): saving a text backend and
re-initializing from the written JSONL lines reproduces exactly the same
entries, preserving id, hash, both language codes, both texts, count and
both timestamps.  The hypothesis states that the in-memory strings fit
their fixed-size buffers, which holds for every entry the backend itself
creates or loads. -/
theorem save_reload_roundtrip (ctx : TextBackendContext)
    (h : ∀ e ∈ ctx.entries, fitsBuffers e) :
    (load_cache_from_file ((text_backend_save ctx).map some)).entries =
      ctx.entries := by
  have : (text_backend_save ctx).map some =
      ctx.entries.map (fun e => some (entryToJson e)) := by
    simp [text_backend_save]
  rw [load_cache_from_file, this, load_append ctx.entries emptyTextCtx h]
  simp [emptyTextCtx]

/-- Witness for C7: a two-entry backend survives the round trip. -/
theorem save_reload_roundtrip_witness :
    (load_cache_from_file ((text_backend_save
      { entries := [⟨1, "h1", "kor", "eng", "hi", "Hello", 3, 20, 10⟩,
                    ⟨2, "h2", "eng", "kor", "bye", "Bye", 1, 30, 30⟩],
        next_id := 3 }).map some)).entries =
      [⟨1, "h1", "kor", "eng", "hi", "Hello", 3, 20, 10⟩,
       ⟨2, "h2", "eng", "kor", "bye", "Bye", 1, 30, 30⟩] :=
  save_reload_roundtrip
    { entries := [⟨1, "h1", "kor", "eng", "hi", "Hello", 3, 20, 10⟩,
                  ⟨2, "h2", "eng", "kor", "bye", "Bye", 1, 30, 30⟩],
      next_id := 3 }
    (by decide)

/-- Maximum entry id in a list, floored at 0 (the load rule's
`max(id over all loaded entries, 0)`). -/
def maxIdOr0 (es : List CacheEntry) : Int :=
  es.foldl (fun m e => max m e.id) 0

theorem foldl_max_bounds (es : List CacheEntry) :
    ∀ a : Int, a ≤ es.foldl (fun m e => max m e.id) a ∧
      ∀ e ∈ es, e.id ≤ es.foldl (fun m e => max m e.id) a := by
  induction es with
  | nil => intro a; simp
  | cons e rest ih =>
    intro a
    refine ⟨le_trans (le_max_left a e.id) (ih (max a e.id)).1, ?_⟩
    intro e' he'
    rcases List.mem_cons.mp he' with rfl | h'
    · exact le_trans (le_max_right a e'.id) (ih (max a e'.id)).1
    · exact (ih (max a e.id)).2 e' h'

theorem le_maxIdOr0 (es : List CacheEntry) : ∀ e ∈ es, e.id ≤ maxIdOr0 es :=
  (foldl_max_bounds es 0).2

theorem maxIdOr0_append (es : List CacheEntry) (e : CacheEntry) :
    maxIdOr0 (es ++ [e]) = max (maxIdOr0 es) e.id := by
  simp [maxIdOr0, List.foldl_append]

theorem load_nextid_invariant (lines : List (Option JsonObj)) :
    ∀ acc : TextBackendContext, acc.next_id = 1 + maxIdOr0 acc.entries →
      (lines.foldl loadStep acc).next_id =
        1 + maxIdOr0 (lines.foldl loadStep acc).entries := by
  induction lines with
  | nil => intro acc h; exact h
  | cons line rest ih =>
    intro acc h
    simp only [List.foldl_cons]
    apply ih
    cases line with
    | none => exact h
    | some o =>
      simp only [loadStep]
      cases hp : parseEntryLine o with
      | none => exact h
      | some e =>
        simp only [maxIdOr0_append]
        by_cases hid : e.id ≥ acc.next_id
        · have : max (maxIdOr0 acc.entries) e.id = e.id :=
            max_eq_right (by omega)
          simp [hid, this]
          omega
        · have : max (maxIdOr0 acc.entries) e.id = maxIdOr0 acc.entries :=
            max_eq_left (by omega)
          simp [hid, this, h]
          omega

/-- C9.  Identifier allocation: after loading a JSONL file the next-id
counter equals `1 + max(id over all loaded entries, 0)`; every loaded id
is below the counter; and whenever every stored id is below the counter,
`add` assigns exactly the counter value as the new id — strictly greater
than every previously known id — and re-establishes the bound. -/
theorem id_allocation (lines : List (Option JsonObj))
    (ctx : TextBackendContext) (f t x tr : String) (now : Int)
    (hni : ∀ e ∈ ctx.entries, e.id < ctx.next_id) :
    (load_cache_from_file lines).next_id =
      1 + maxIdOr0 (load_cache_from_file lines).entries ∧
    (∀ e ∈ (load_cache_from_file lines).entries,
      e.id < (load_cache_from_file lines).next_id) ∧
    (∃ newEntry,
      (text_backend_add ctx f t x tr now).entries = ctx.entries ++ [newEntry] ∧
      newEntry.id = ctx.next_id ∧
      (∀ e ∈ ctx.entries, e.id < newEntry.id) ∧
      (∀ e ∈ (text_backend_add ctx f t x tr now).entries,
        e.id < (text_backend_add ctx f t x tr now).next_id)) := by
  have hload : (load_cache_from_file lines).next_id =
      1 + maxIdOr0 (load_cache_from_file lines).entries :=
    load_nextid_invariant lines emptyTextCtx (by simp [emptyTextCtx, maxIdOr0])
  refine ⟨hload, ?_, ?_⟩
  · intro e he
    have := le_maxIdOr0 (load_cache_from_file lines).entries e he
    omega
  · refine ⟨_, rfl, rfl, hni, ?_⟩
    intro e he
    simp only [text_backend_add] at he ⊢
    rcases List.mem_append.mp he with h' | h'
    · have := hni e h'
      omega
    · rcases List.mem_singleton.mp h' with rfl
      simp

/-- Witness for C9: loading ids 3 and 7 sets the counter to 8, and `add`
on an empty backend can be applied. -/
theorem id_allocation_witness :
    (load_cache_from_file
      [some [("id", JsonVal.num 3), ("hash", JsonVal.str "h1"),
        ("from", JsonVal.str "kor"), ("to", JsonVal.str "eng"),
        ("source", JsonVal.str "a"), ("target", JsonVal.str "A"),
        ("count", JsonVal.num 1), ("last_used", JsonVal.num 5),
        ("created_at", JsonVal.num 5)],
       some [("id", JsonVal.num 7), ("hash", JsonVal.str "h2"),
        ("from", JsonVal.str "kor"), ("to", JsonVal.str "eng"),
        ("source", JsonVal.str "b"), ("target", JsonVal.str "B"),
        ("count", JsonVal.num 2), ("last_used", JsonVal.num 6),
        ("created_at", JsonVal.num 6)]]).next_id =
      1 + maxIdOr0 (load_cache_from_file
      [some [("id", JsonVal.num 3), ("hash", JsonVal.str "h1"),
        ("from", JsonVal.str "kor"), ("to", JsonVal.str "eng"),
        ("source", JsonVal.str "a"), ("target", JsonVal.str "A"),
        ("count", JsonVal.num 1), ("last_used", JsonVal.num 5),
        ("created_at", JsonVal.num 5)],
       some [("id", JsonVal.num 7), ("hash", JsonVal.str "h2"),
        ("from", JsonVal.str "kor"), ("to", JsonVal.str "eng"),
        ("source", JsonVal.str "b"), ("target", JsonVal.str "B"),
        ("count", JsonVal.num 2), ("last_used", JsonVal.num 6),
        ("created_at", JsonVal.num 6)]]).entries :=
  (id_allocation _ { entries := [], next_id := 1 } "kor" "eng" "hi" "Hello" 9
    (by simp)).1

theorem findHash_filter (l : List CacheEntry) (hk : String)
    (p : CacheEntry → Bool) (i : Nat) (e : CacheEntry)
    (hfind : findHash l hk = some (i, e)) (hp : p e = true) :
    ∃ j, findHash (l.filter p) hk = some (j, e) := by
  induction l generalizing i with
  | nil => cases hfind
  | cons a rest ih =>
    by_cases ha : a.hash = hk
    · rw [findHash, if_pos ha] at hfind
      simp only [Option.some.injEq, Prod.mk.injEq] at hfind
      obtain ⟨-, rfl⟩ := hfind
      exact ⟨0, by simp [List.filter_cons, hp, findHash, ha]⟩
    · rw [findHash, if_neg ha] at hfind
      cases hrest : findHash rest hk with
      | none => rw [hrest] at hfind; cases hfind
      | some q =>
        obtain ⟨i', e'⟩ := q
        rw [hrest] at hfind
        simp only [Option.map_some', Option.some.injEq, Prod.mk.injEq] at hfind
        obtain ⟨-, rfl⟩ := hfind
        obtain ⟨j, hj⟩ := ih i' hrest
        by_cases hpa : p a
        · exact ⟨j + 1, by simp [List.filter_cons, hpa, findHash, ha, hj]⟩
        · exact ⟨j, by simp [List.filter_cons, hpa, hj]⟩

/-- C10 counterexample.  With two live entries sharing one hash (reachable
through the unchecked text-backend `add`, see the C2 counterexample), a
key can be present both before and after cleanup while lookup returns a
different entry: the first match expires and a later duplicate takes
over. -/
theorem cleanup_frame_counterexample :
    (text_backend_lookup
      { entries := [⟨1, trans_cache_calculate_hash "kor" "eng" "hi", "kor", "eng",
                     "hi", "Hello", 1, 0, 0⟩,
                    ⟨2, trans_cache_calculate_hash "kor" "eng" "hi", "kor", "eng",
                     "hi", "Howdy", 1, 2678500, 0⟩], next_id := 3 }
      "kor" "eng" "hi" 42).1 =
      some (0, ⟨1, trans_cache_calculate_hash "kor" "eng" "hi", "kor", "eng",
                "hi", "Hello", 1, 42, 0⟩) ∧
    (text_backend_lookup
      (text_backend_cleanup
        { entries := [⟨1, trans_cache_calculate_hash "kor" "eng" "hi", "kor", "eng",
                       "hi", "Hello", 1, 0, 0⟩,
                      ⟨2, trans_cache_calculate_hash "kor" "eng" "hi", "kor", "eng",
                       "hi", "Howdy", 1, 2678500, 0⟩], next_id := 3 }
        30 2678400).2
      "kor" "eng" "hi" 42).1 =
      some (0, ⟨2, trans_cache_calculate_hash "kor" "eng" "hi", "kor", "eng",
                "hi", "Howdy", 1, 42, 0⟩) ∧
    (⟨1, trans_cache_calculate_hash "kor" "eng" "hi", "kor", "eng",
      "hi", "Hello", 1, 42, 0⟩ : CacheEntry) ≠
      ⟨2, trans_cache_calculate_hash "kor" "eng" "hi", "kor", "eng",
       "hi", "Howdy", 1, 42, 0⟩ := by
  refine ⟨?_, ?_, ?_⟩
  · simp [text_backend_lookup, findHash]
  · simp [text_backend_cleanup, text_backend_lookup, findHash]
  · simp

/-- C10 amended.  Text-backend cleanup is exactly an order-preserving,
field-preserving filter of the entry sequence (survivors form a sublist of
the original, and every non-expired entry survives); and whenever the
first-match scan finds an entry that is itself not expired, the scan after
cleanup still returns that same entry. -/
theorem cleanup_frame_amended (ctx : TextBackendContext) (days now : Int)
    (hk : String) :
    (text_backend_cleanup ctx days now).2.entries.Sublist ctx.entries ∧
    (∀ e ∈ ctx.entries, ¬ e.last_used < now - days * 86400 →
      e ∈ (text_backend_cleanup ctx days now).2.entries) ∧
    (∀ i e, findHash ctx.entries hk = some (i, e) →
      ¬ e.last_used < now - days * 86400 →
      ∃ j, findHash (text_backend_cleanup ctx days now).2.entries hk =
        some (j, e)) := by
  have hb : now - days * (24 * 60 * 60) = now - days * 86400 := by norm_num
  by_cases hd : days ≤ 0
  · simp only [text_backend_cleanup, hd, if_true]
    exact ⟨List.Sublist.refl _, fun e he _ => he, fun i e hf _ => ⟨i, hf⟩⟩
  · simp only [text_backend_cleanup, hd, if_false, hb]
    refine ⟨List.filter_sublist _, ?_, ?_⟩
    · intro e he hexp
      exact List.mem_filter.mpr ⟨he, by simp [hexp]⟩
    · intro i e hf hexp
      exact findHash_filter _ _ _ _ _ hf (by simp [hexp])

/-- Witness for C10 amended: a surviving first match is still found after
cleanup, at a concrete one-entry backend. -/
theorem cleanup_frame_amended_witness :
    ∃ j, findHash
      (text_backend_cleanup
        { entries := [⟨1, "h1", "kor", "eng", "a", "A", 1, 100, 0⟩],
          next_id := 2 } 30 50).2.entries "h1" =
      some (j, ⟨1, "h1", "kor", "eng", "a", "A", 1, 100, 0⟩) :=
  (cleanup_frame_amended
    { entries := [⟨1, "h1", "kor", "eng", "a", "A", 1, 100, 0⟩], next_id := 2 }
    30 50 "h1").2.2 0 ⟨1, "h1", "kor", "eng", "a", "A", 1, 100, 0⟩
    (by simp [findHash]) (by norm_num)

/-- The hash `add` computes for an entry's identity fields. -/
def keyHash (e : CacheEntry) : String :=
  trans_cache_calculate_hash e.from_lang e.to_lang e.source_text

theorem keyHash_length (e : CacheEntry) : (keyHash e).length = 64 :=
  trans_cache_calculate_hash_length _ _ _

theorem migrate_text_spec (now : Int) :
    ∀ (es : List CacheEntry) (dst : TextBackendContext),
    (∀ e ∈ es, e.from_lang.length = 3 ∧ e.to_lang.length = 3) →
    (migrate_to_text es dst now).1.entries.map tuple4 =
      dst.entries.map tuple4 ++ es.map tuple4 ∧
    (migrate_to_text es dst now).2.migrated = es.length ∧
    (migrate_to_text es dst now).2.failed = 0 := by
  intro es
  induction es with
  | nil => intro dst _; simp [migrate_to_text]
  | cons e rest ih =>
    intro dst h
    have he := h e (List.mem_cons_self e rest)
    obtain ⟨h1, h2, h3⟩ :=
      ih (text_backend_add dst e.from_lang e.to_lang e.source_text
            e.translated_text now)
        (fun e' he' => h e' (List.mem_cons_of_mem e he'))
    simp only [migrate_to_text]
    refine ⟨?_, by simp [h2], by simp [h3]⟩
    rw [h1]
    have hf : truncStr 3 e.from_lang = e.from_lang :=
      truncStr_of_le _ _ (le_of_eq he.1)
    have ht : truncStr 3 e.to_lang = e.to_lang :=
      truncStr_of_le _ _ (le_of_eq he.2)
    simp [text_backend_add, tuple4, hf, ht]

theorem migrate_sqlite_spec (now : Int) :
    ∀ (es : List CacheEntry) (st0 : SqliteState),
    (∀ e ∈ es, e.from_lang.length = 3 ∧ e.to_lang.length = 3) →
    (es.map keyHash).Nodup →
    (∀ e ∈ es, ∀ r ∈ st0.rows, r.hash ≠ keyHash e) →
    (migrate_to_sqlite es st0 now).1.rows.map tuple4 =
      st0.rows.map tuple4 ++ es.map tuple4 ∧
    (∀ r ∈ (migrate_to_sqlite es st0 now).1.rows,
      r ∈ st0.rows ∨ (r.count = 1 ∧ r.created_at = now ∧ r.last_used = now ∧
        r.from_lang.length = 3 ∧ r.to_lang.length = 3)) ∧
    (migrate_to_sqlite es st0 now).2.migrated = es.length ∧
    (migrate_to_sqlite es st0 now).2.failed = 0 := by
  intro es
  induction es with
  | nil =>
    intro st0 _ _ _
    exact ⟨by simp [migrate_to_sqlite], fun r hr => Or.inl (by simpa [migrate_to_sqlite] using hr),
      by simp [migrate_to_sqlite], by simp [migrate_to_sqlite]⟩
  | cons e rest ih =>
    intro st0 hlang hnd hfresh
    have he := hlang e (List.mem_cons_self e rest)
    have hany : (st0.rows.any (fun r => r.hash == keyHash e)) = false := by
      simp only [List.any_eq_false]
      intro r hr
      simpa using hfresh e (List.mem_cons_self e rest) r hr
    have hchecks : sqliteChecksOk
        { id := st0.next_rowid, hash := keyHash e, from_lang := e.from_lang,
          to_lang := e.to_lang, source_text := e.source_text,
          translated_text := e.translated_text, count := 1,
          last_used := now, created_at := now } = true := by
      simp [sqliteChecksOk, keyHash_length e, he.1, he.2]
    have hadd : sqlite_backend_add st0 e.from_lang e.to_lang e.source_text
        e.translated_text now = some
        { rows := st0.rows ++
            [{ id := st0.next_rowid, hash := keyHash e,
               from_lang := e.from_lang, to_lang := e.to_lang,
               source_text := e.source_text,
               translated_text := e.translated_text, count := 1,
               last_used := now, created_at := now }],
          next_rowid := st0.next_rowid + 1 } := by
      simp only [sqlite_backend_add, keyHash] at hany hchecks ⊢
      simp [hany, hchecks]
    have hnd' : (rest.map keyHash).Nodup := (List.nodup_cons.mp (by simpa using hnd)).2
    have hnotin : keyHash e ∉ rest.map keyHash :=
      (List.nodup_cons.mp (by simpa using hnd)).1
    obtain ⟨h1, h2, h3, h4⟩ := ih
      { rows := st0.rows ++
          [{ id := st0.next_rowid, hash := keyHash e,
             from_lang := e.from_lang, to_lang := e.to_lang,
             source_text := e.source_text,
             translated_text := e.translated_text, count := 1,
             last_used := now, created_at := now }],
        next_rowid := st0.next_rowid + 1 }
      (fun e' he' => hlang e' (List.mem_cons_of_mem e he')) hnd'
      (by
        intro e' he' r hr
        rcases List.mem_append.mp hr with h' | h'
        · exact hfresh e' (List.mem_cons_of_mem e he') r h'
        · rcases List.mem_singleton.mp h' with rfl
          intro hcon
          exact hnotin (by
            simp only [List.mem_map]
            exact ⟨e', he', by simpa using hcon.symm⟩))
    simp only [migrate_to_sqlite, hadd]
    refine ⟨?_, ?_, by simp [h3], by simp [h4]⟩
    · rw [h1]
      simp [tuple4]
    · intro r hr
      rcases h2 r hr with h' | h'
      · rcases List.mem_append.mp h' with h'' | h''
        · exact Or.inl h''
        · rcases List.mem_singleton.mp h'' with rfl
          exact Or.inr ⟨rfl, rfl, rfl, he.1, he.2⟩
      · exact Or.inr h'

/-- C8.  Migration semantics (P7): migration passes only the four
identity fields to the destination's `add`, so every migrated row is
fresh (`count = 1`, both timestamps `now`); and a text → SQLite → text
round trip over an idle cache with three-letter language codes and
pairwise-distinct computed hashes migrates everything without failures
and preserves the sequence of `(from, to, source_text, translated_text)`
tuples exactly. -/
theorem migration_semantics (src : TextBackendContext) (now now2 : Int)
    (hlang : ∀ e ∈ src.entries, e.from_lang.length = 3 ∧ e.to_lang.length = 3)
    (hhash : (src.entries.map keyHash).Nodup) :
    (∀ r ∈ (migrate_to_sqlite src.entries emptySqlite now).1.rows,
      r.count = 1 ∧ r.created_at = now ∧ r.last_used = now) ∧
    (migrate_to_sqlite src.entries emptySqlite now).2.migrated =
      src.entries.length ∧
    (migrate_to_sqlite src.entries emptySqlite now).2.failed = 0 ∧
    (migrate_to_text (migrate_to_sqlite src.entries emptySqlite now).1.rows
        emptyTextCtx now2).1.entries.map tuple4 =
      src.entries.map tuple4 := by
  obtain ⟨h1, h2, h3, h4⟩ := migrate_sqlite_spec now src.entries emptySqlite
    hlang hhash (by intro e _ r hr; simp [emptySqlite] at hr)
  have hrowslang : ∀ r ∈ (migrate_to_sqlite src.entries emptySqlite now).1.rows,
      r.from_lang.length = 3 ∧ r.to_lang.length = 3 := by
    intro r hr
    rcases h2 r hr with h' | h'
    · simp [emptySqlite] at h'
    · exact ⟨h'.2.2.2.1, h'.2.2.2.2⟩
  refine ⟨?_, h3, h4, ?_⟩
  · intro r hr
    rcases h2 r hr with h' | h'
    · simp [emptySqlite] at h'
    · exact ⟨h'.1, h'.2.1, h'.2.2.1⟩
  · obtain ⟨g1, -, -⟩ := migrate_text_spec now2
      (migrate_to_sqlite src.entries emptySqlite now).1.rows emptyTextCtx
      hrowslang
    rw [g1, h1]
    simp [emptySqlite, emptyTextCtx]

set_option maxRecDepth 1000000 in
/-- Witness for C8: a two-entry source round-trips through SQLite and
back with its identity tuples intact. -/
theorem migration_semantics_witness :
    (migrate_to_text (migrate_to_sqlite
        [⟨1, "x", "kor", "eng", "hi", "Hello", 3, 10, 5⟩,
         ⟨2, "y", "kor", "eng", "bye", "Bye", 7, 20, 6⟩]
        emptySqlite 100).1.rows emptyTextCtx 200).1.entries.map tuple4 =
      [⟨1, "x", "kor", "eng", "hi", "Hello", 3, 10, 5⟩,
       ⟨2, "y", "kor", "eng", "bye", "Bye", 7, 20, 6⟩].map tuple4 :=
  (migration_semantics
    { entries := [⟨1, "x", "kor", "eng", "hi", "Hello", 3, 10, 5⟩,
                  ⟨2, "y", "kor", "eng", "bye", "Bye", 7, 20, 6⟩],
      next_id := 3 }
    100 200 (by decide)
    (by have : ¬ trans_cache_calculate_hash "kor" "eng" "hi" =
          trans_cache_calculate_hash "kor" "eng" "bye" := by decide
        simpa [keyHash] using this)).2.2.2

end Transbasket
